import Mathlib

/-!
Shallow embedding of the file-explorer server (file_explorer_app.js,
enhanced_server.js, folder_structure_app.js, f1.js and the two unnamed
variants).  JavaScript strings are modelled as Lean `String`; Node's POSIX
path functions (`path.join`, `path.resolve`, `path.extname`,
`path.basename`) are modelled lexically, which matches Node: `path.resolve`
does not consult the filesystem.  The filesystem itself is modelled as an
inductive tree in which a node records whether `readdir`/`stat` succeed,
so that the try/catch behaviour of the source can be stated exactly.
-/

namespace FileExplorer

/-! ### JavaScript string primitives -/

/-- JS `s.startsWith(t)`: `t` is a character-level prefix of `s`.  This is the
exact containment test used by the security check in the source. -/
def jsStartsWith (s t : String) : Bool :=
  t.data.isPrefixOf s.data

/-- ASCII lowercasing of one character (`toLowerCase` restricted to the ASCII
range, which covers every file extension the source dispatches on). -/
def asciiLowerChar (c : Char) : Char :=
  if 'A' ≤ c ∧ c ≤ 'Z' then Char.ofNat (c.toNat + 32) else c

/-- JS `s.toLowerCase()` on ASCII data. -/
def asciiLower (s : String) : String :=
  ⟨s.data.map asciiLowerChar⟩

/-! ### POSIX path model (Node `path` module) -/

/-- Split a character list on `'/'`, keeping empty segments, as
`s.split('/')` would. -/
def splitSegsAux : List Char → List Char → List String
  | [], cur => [String.mk cur.reverse]
  | c :: rest, cur =>
    if c = '/' then String.mk cur.reverse :: splitSegsAux rest []
    else splitSegsAux rest (c :: cur)

/-- The `'/'`-separated segments of a path string (empty segments kept). -/
def segsOf (s : String) : List String :=
  splitSegsAux s.data []

/-- Left-to-right normalisation of the segments of an absolute path: empty
and `.` segments are dropped, `..` pops the previous segment (and is dropped
at the root, as Node does for absolute paths).  The accumulator holds the
output in reverse. -/
def normAux : List String → List String → List String
  | [], acc => acc
  | s :: rest, acc =>
    if s = "" ∨ s = "." then normAux rest acc
    else if s = ".." then normAux rest acc.tail
    else normAux rest (s :: acc)

/-- Canonical segment list of an absolute path. -/
def normAbs (segs : List String) : List String :=
  (normAux segs []).reverse

/-- Segments a normalisation pass keeps verbatim. -/
def keepSeg (s : String) : Bool :=
  !(s == "" || s == ".")

/-- Join segments with `'/'` separators. -/
def joinSegs : List String → String
  | [] => ""
  | [s] => s
  | s :: t :: rest => s ++ "/" ++ joinSegs (t :: rest)

/-- Render a canonical segment list as an absolute path string. -/
def pathOfSegs (segs : List String) : String :=
  "/" ++ joinSegs segs

/-- Node `path.resolve` on an already-absolute path: purely lexical
normalisation (Node does not resolve symlinks here). -/
def resolveAbs (s : String) : String :=
  pathOfSegs (normAbs (segsOf s))

/-- A path is absolute when it starts with `'/'`. -/
def isAbsolute (s : String) : Bool :=
  jsStartsWith s "/"

/-- Node `path.resolve(p)` with current working directory `cwd`. -/
def resolvePath (cwd p : String) : String :=
  if isAbsolute p then resolveAbs p else resolveAbs (cwd ++ "/" ++ p)

/-- Node `path.basename`: last non-empty `'/'`-separated segment. -/
def pathBasename (s : String) : String :=
  ((segsOf s).filter (fun x => x ≠ "")).getLastD ""

/-- The security check shared by the `/api/folders`, `/api/file` and
`/api/download` endpoints:
`fullPath = path.join(ROOT_FOLDER, p)`, `normalizedPath = path.resolve(fullPath)`,
`normalizedRoot = path.resolve(ROOT_FOLDER)`, and the request is denied unless
`normalizedPath.startsWith(normalizedRoot)`.  For an absolute root,
`path.resolve(path.join(root, p))` equals `resolveAbs (root ++ "/" ++ p)`.
Returns the normalised path when the check passes, `none` (HTTP 403) when it
is denied. -/
def pathGuard (root p : String) : Option String :=
  let normalizedPath := resolveAbs (root ++ "/" ++ p)
  let normalizedRoot := resolveAbs root
  if jsStartsWith normalizedPath normalizedRoot then some normalizedPath else none

/-- The spec's notion of containment: the canonical root is a
segment-by-segment prefix of the canonical path (so `/root-evil` is NOT
inside `/root`). -/
def insideRoot (root q : String) : Bool :=
  (normAbs (segsOf root)).isPrefixOf (normAbs (segsOf q))

/-! ### Filesystem model

A node of the on-disk tree.  `dir` is a readable directory with its named
children in on-disk order; `unreadableDir` is a directory whose `stat`
succeeds but whose `readdir` throws (permission denied); `ghost` is an entry
that a parent `readdir` still lists but whose `stat` throws (race-deleted) —
its `isDir` flag is what a `withFileTypes` dirent would report. -/

inductive FS where
  | file (content : List Nat)
  | dir (entries : List (String × FS))
  | unreadableDir
  | ghost (isDir : Bool)

/-- What a `withFileTypes` dirent's `isDirectory()` reports for a node. -/
def FS.isDirType : FS → Bool
  | .file _ => false
  | .dir _ => true
  | .unreadableDir => true
  | .ghost b => b

/-- Result of `fs.stat` on a node: `none` means the call throws. -/
structure StatInfo where
  isDirectory : Bool
  size : Nat
  mtime : Nat
deriving DecidableEq

instance {ε α : Type} [DecidableEq ε] [DecidableEq α] : DecidableEq (Except ε α) := by
  intro a b
  cases a <;> cases b
  case error.error e₁ e₂ =>
    exact match decEq e₁ e₂ with
    | isTrue h => isTrue (by rw [h])
    | isFalse h => isFalse (fun he => by cases he; exact h rfl)
  case error.ok _ _ => exact isFalse (fun he => by cases he)
  case ok.error _ _ => exact isFalse (fun he => by cases he)
  case ok.ok a₁ a₂ =>
    exact match decEq a₁ a₂ with
    | isTrue h => isTrue (by rw [h])
    | isFalse h => isFalse (fun he => by cases he; exact h rfl)

/-- Model of `fs.stat` (the `mtime` of files is not tracked per-node here;
directory sizes are irrelevant to the source). -/
def FS.statOf : FS → Option StatInfo
  | .file c => some ⟨false, c.length, 0⟩
  | .dir _ => some ⟨true, 0, 0⟩
  | .unreadableDir => some ⟨true, 0, 0⟩
  | .ghost _ => none

/-! ### file_explorer_app.js / unnamed variants: `getFolderStructure`
(folders only, `readdir` with `withFileTypes`, `catch` returns `[]`). -/

/-- A folder node of the folders-only tree: `{ name, subFolders }`. -/
inductive FeFolder where
  | mk (name : String) (subFolders : List FeFolder)

mutual

def FeFolder.decEq : (a b : FeFolder) → Decidable (a = b)
  | .mk n₁ s₁, .mk n₂ s₂ =>
    match String.decEq n₁ n₂ with
    | isTrue hn =>
      match FeFolder.decEqList s₁ s₂ with
      | isTrue hs => isTrue (by rw [hn, hs])
      | isFalse hs => isFalse (fun h => by cases h; exact hs rfl)
    | isFalse hn => isFalse (fun h => by cases h; exact hn rfl)

def FeFolder.decEqList : (a b : List FeFolder) → Decidable (a = b)
  | [], [] => isTrue rfl
  | [], _ :: _ => isFalse (fun h => by cases h)
  | _ :: _, [] => isFalse (fun h => by cases h)
  | x :: xs, y :: ys =>
    match FeFolder.decEq x y with
    | isTrue hx =>
      match FeFolder.decEqList xs ys with
      | isTrue hxs => isTrue (by rw [hx, hxs])
      | isFalse hxs => isFalse (fun h => by cases h; exact hxs rfl)
    | isFalse hx => isFalse (fun h => by cases h; exact hx rfl)

end

instance : DecidableEq FeFolder := FeFolder.decEq

def FeFolder.name : FeFolder → String
  | .mk n _ => n

def FeFolder.subFolders : FeFolder → List FeFolder
  | .mk _ s => s

mutual

/-- `getFolderStructure` of file_explorer_app.js (also verbatim in f1.js and
both unnamed variants): `readdir` the directory with `withFileTypes`, keep
the directory-typed entries, recurse into each; any `readdir` failure is
caught and yields `[]`. -/
def feGetFolderStructure : FS → List FeFolder
  | FS.dir entries => feChildren entries
  | _ => []

/-- The `for (const item of items)` loop of `feGetFolderStructure`. -/
def feChildren : List (String × FS) → List FeFolder
  | [] => []
  | (name, child) :: rest =>
    if child.isDirType then
      FeFolder.mk name (feGetFolderStructure child) :: feChildren rest
    else
      feChildren rest

end

/-! ### `/api/folders/:folderPath(*)` listing (file_explorer_app.js)

The endpoint lists one level: directory entries go to `folders` (with an
eagerly recursed `subFolders` tree) or to `files`, in `readdir` order —
the endpoint performs no sorting. -/

structure FeFolderEntry where
  name : String
  path : String
  subFolders : List FeFolder
deriving DecidableEq

structure FeFileEntry where
  name : String
  path : String
deriving DecidableEq

structure FeStructure where
  folders : List FeFolderEntry
  files : List FeFileEntry
deriving DecidableEq

/-- `path.join(folderPath, item.name)` for the relative paths the endpoint
returns (the `replace(/\\/g, '/')` is the identity on POSIX paths). -/
def joinRel (folderPath name : String) : String :=
  if folderPath = "" then name else folderPath ++ "/" ++ name

/-- The entry-classification loop of the `/api/folders` endpoint. -/
def feListLoop (folderPath : String) : List (String × FS) → FeStructure
  | [] => ⟨[], []⟩
  | (name, child) :: rest =>
    let s := feListLoop folderPath rest
    if child.isDirType then
      ⟨⟨name, joinRel folderPath name, feGetFolderStructure child⟩ :: s.folders, s.files⟩
    else
      ⟨s.folders, ⟨name, joinRel folderPath name⟩ :: s.files⟩

/-- One HTTP response of the folder-listing endpoint. -/
inductive FoldersResp where
  | ok (structure_ : FeStructure)
  | accessDenied
  | readError
deriving DecidableEq

/-- The `/api/folders/:folderPath(*)` endpoint of file_explorer_app.js with a
configured root.  `world` maps the (unnormalised) full path that the source
hands to `fs.readdir` to the filesystem node found there; the guard runs
before any filesystem access, so a denied request never consults `world`. -/
def foldersEndpoint (world : String → FS) (root folderPath : String) : FoldersResp :=
  match pathGuard root folderPath with
  | none => FoldersResp.accessDenied
  | some _ =>
    match world (root ++ "/" ++ folderPath) with
    | FS.dir entries => FoldersResp.ok (feListLoop folderPath entries)
    | _ => FoldersResp.readError

/-- `GET /api/home-structure` (file_explorer_app.js): 400 when no root is
configured, otherwise the folders-only tree of the root.  Because
`feGetFolderStructure` handles every failure internally, the endpoint's 500
branch is unreachable and a configured root always answers 200. -/
inductive HomeResp where
  | ok (folders : List FeFolder)
  | notConfigured
  | serverError (msg : String)
deriving DecidableEq

/-- Whether the response is a 200 carrying a folder list. -/
def HomeResp.isOk : HomeResp → Bool
  | .ok _ => true
  | _ => false

/-- The endpoint's `try` wraps only the `getFolderStructure` call, whose own
`catch` already absorbs every filesystem failure, so the source's 500 branch
(`HomeResp.serverError`) is never produced. -/
def homeStructureEndpoint : Option FS → HomeResp
  | none => HomeResp.notConfigured
  | some rootNode => HomeResp.ok (feGetFolderStructure rootNode)

/-! ### folder_structure_app.js: `getFolderStructure`
(plain `readdir`, per-entry `stat`, exclusion filter, depth limit, sorted,
`catch` returns `null`). -/

/-- A node of folder_structure_app.js's tree: either
`{ name, type: 'folder', path, children }` or `{ name, type: 'file', path, size }`. -/
inductive FsaNode where
  | folder (name path : String) (children : List FsaNode)
  | fileNode (name path : String) (size : Nat)

mutual

def FsaNode.decEq : (a b : FsaNode) → Decidable (a = b)
  | .folder n₁ p₁ c₁, .folder n₂ p₂ c₂ =>
    match String.decEq n₁ n₂, String.decEq p₁ p₂ with
    | isTrue hn, isTrue hp =>
      match FsaNode.decEqList c₁ c₂ with
      | isTrue hc => isTrue (by rw [hn, hp, hc])
      | isFalse hc => isFalse (fun h => by cases h; exact hc rfl)
    | isFalse hn, _ => isFalse (fun h => by cases h; exact hn rfl)
    | _, isFalse hp => isFalse (fun h => by cases h; exact hp rfl)
  | .fileNode n₁ p₁ s₁, .fileNode n₂ p₂ s₂ =>
    match String.decEq n₁ n₂, String.decEq p₁ p₂, Nat.decEq s₁ s₂ with
    | isTrue hn, isTrue hp, isTrue hs => isTrue (by rw [hn, hp, hs])
    | isFalse hn, _, _ => isFalse (fun h => by cases h; exact hn rfl)
    | _, isFalse hp, _ => isFalse (fun h => by cases h; exact hp rfl)
    | _, _, isFalse hs => isFalse (fun h => by cases h; exact hs rfl)
  | .folder _ _ _, .fileNode _ _ _ => isFalse (fun h => by cases h)
  | .fileNode _ _ _, .folder _ _ _ => isFalse (fun h => by cases h)

def FsaNode.decEqList : (a b : List FsaNode) → Decidable (a = b)
  | [], [] => isTrue rfl
  | [], _ :: _ => isFalse (fun h => by cases h)
  | _ :: _, [] => isFalse (fun h => by cases h)
  | x :: xs, y :: ys =>
    match FsaNode.decEq x y with
    | isTrue hx =>
      match FsaNode.decEqList xs ys with
      | isTrue hxs => isTrue (by rw [hx, hxs])
      | isFalse hxs => isFalse (fun h => by cases h; exact hxs rfl)
    | isFalse hx => isFalse (fun h => by cases h; exact hx rfl)

end

instance : DecidableEq FsaNode := FsaNode.decEq

def FsaNode.isFolder : FsaNode → Bool
  | .folder _ _ _ => true
  | .fileNode _ _ _ => false

def FsaNode.nodeName : FsaNode → String
  | .folder n _ _ => n
  | .fileNode n _ _ => n

/-- Lexicographic ≤ on character lists by code point; this models the order
that `a.name.localeCompare(b.name)` induces (locale tailoring is not
modelled; every name the claims touch is plain ASCII). -/
def jsStrLeChars : List Char → List Char → Bool
  | [], _ => true
  | _ :: _, [] => false
  | a :: as, b :: bs =>
    if a.toNat < b.toNat then true
    else if a.toNat = b.toNat then jsStrLeChars as bs
    else false

/-- Name order used by the sort comparator. -/
def jsStrLe (a b : String) : Bool :=
  jsStrLeChars a.data b.data

/-- The comparator passed to `structure.sort` in folder_structure_app.js,
as a ≤-relation: folders come before files; within one kind the names are
compared with `localeCompare`. -/
def fsaLe (a b : FsaNode) : Prop :=
  (a.isFolder = true ∧ b.isFolder = false) ∨
    (a.isFolder = b.isFolder ∧ jsStrLe a.nodeName b.nodeName = true)

instance : DecidableRel fsaLe := fun _ _ =>
  inferInstanceAs (Decidable (_ ∨ _))


/-- The exclusion test of folder_structure_app.js:
`item.startsWith('.') || ['node_modules', '.git', 'dist', 'build'].includes(item)`. -/
def skipEntry (name : String) : Bool :=
  jsStartsWith name "." || ["node_modules", ".git", "dist", "build"].contains name

/-- The `for (const item of items)` loop of folder_structure_app.js's
`getFolderStructure`, parameterised by the recursive call `rec` for
subdirectories: skipped entries are dropped, a `stat` failure aborts the
whole level (`none`, the function's own `catch` turns the exception into
`null`), a directory entry recurses and `children || []` turns a `null`
recursive result into `[]`. -/
def fsaLoop (rec : String → FS → Option (List FsaNode)) (dirPath : String) :
    List (String × FS) → Option (List FsaNode)
  | [] => some []
  | (name, child) :: rest =>
    if skipEntry name then fsaLoop rec dirPath rest
    else
      match child.statOf with
      | none => none
      | some st =>
        if st.isDirectory then
          let children := (rec (dirPath ++ "/" ++ name) child).getD []
          (fsaLoop rec dirPath rest).map
            (FsaNode.folder name (dirPath ++ "/" ++ name) children :: ·)
        else
          (fsaLoop rec dirPath rest).map
            (FsaNode.fileNode name (dirPath ++ "/" ++ name) st.size :: ·)

/-- `getFolderStructure(dirPath, maxDepth, currentDepth)` of
folder_structure_app.js, with `fuel = maxDepth - currentDepth` (the default
call has `maxDepth = 3`, `currentDepth = 0`, so `fuel = 3`).  `none` models
`null`: returned when the depth limit is hit, when `readdir` on `dirPath`
throws, or when a `stat` inside the loop throws.  The surviving entries are
sorted with the folders-first/name comparator. -/
def fsaGetFolderStructure : Nat → String → FS → Option (List FsaNode)
  | 0, _, _ => none
  | fuel + 1, dirPath, fs =>
    match fs with
    | FS.dir entries =>
      (fsaLoop (fsaGetFolderStructure fuel) dirPath entries).map
        (List.insertionSort fsaLe)
    | _ => none

mutual

/-- No node of the tree (at any depth) has an excluded name. -/
def fsaNodeClean : FsaNode → Bool
  | .folder n _ children => !skipEntry n && fsaListClean children
  | .fileNode n _ _ => !skipEntry n

def fsaListClean : List FsaNode → Bool
  | [] => true
  | x :: xs => fsaNodeClean x && fsaListClean xs

end

/-! ### `path.extname` and base64 -/

/-- Index of the last `'.'` in a character list (from the head), if any. -/
def lastDotIdx : List Char → Option Nat
  | [] => none
  | c :: rest =>
    match lastDotIdx rest with
    | some j => some (j + 1)
    | none => if c = '.' then some 0 else none

/-- Node `path.extname`: the suffix of the basename from its last `'.'`,
empty when there is no dot or when the only dot is the leading character of
the basename (hidden files have no extension). -/
def extname (s : String) : String :=
  let b := ((segsOf s).getLastD "").data
  match lastDotIdx b with
  | some j => if j = 0 then "" else String.mk (b.drop j)
  | none => ""

/-- JS `ext.slice(1)`: the extension without its dot. -/
def extType (ext : String) : String :=
  String.mk (ext.data.drop 1)

/-- The base64 alphabet (RFC 4648, the one `Buffer.toString` uses). -/
def b64Alphabet : List Char :=
  "ABCDEFGHIJKLMNOPQRSTUVWXYZabcdefghijklmnopqrstuvwxyz0123456789+/".data

/-- The base64 digit for a six-bit value. -/
def b64Char (n : Nat) : Char :=
  b64Alphabet.getD n '?'

/-- Inverse of `b64Char`: position of a character in the alphabet. -/
def b64CharVal (c : Char) : Option Nat :=
  let i := b64Alphabet.indexOf c
  if i < 64 then some i else none

/-- `Buffer.toString('base64')`: encode three bytes as four digits, padding
the final group with `'='`. -/
def b64EncodeChars : List Nat → List Char
  | [] => []
  | [a] => [b64Char (a / 4), b64Char (a % 4 * 16), '=', '=']
  | [a, b] => [b64Char (a / 4), b64Char (a % 4 * 16 + b / 16), b64Char (b % 16 * 4), '=']
  | a :: b :: c :: rest =>
    b64Char (a / 4) :: b64Char (a % 4 * 16 + b / 16) ::
      b64Char (b % 16 * 4 + c / 64) :: b64Char (c % 64) :: b64EncodeChars rest

/-- The base64 string of a byte list. -/
def base64String (bytes : List Nat) : String :=
  String.mk (b64EncodeChars bytes)

/-- Standard base64 decoding; `none` on malformed input. -/
def b64DecodeChars : List Char → Option (List Nat)
  | [] => some []
  | c1 :: c2 :: c3 :: c4 :: rest =>
    match b64CharVal c1, b64CharVal c2 with
    | some v1, some v2 =>
      if c3 = '=' then
        if c4 = '=' ∧ rest = [] then some [v1 * 4 + v2 / 16] else none
      else
        match b64CharVal c3 with
        | some v3 =>
          if c4 = '=' then
            if rest = [] then some [v1 * 4 + v2 / 16, v2 % 16 * 16 + v3 / 4] else none
          else
            match b64CharVal c4 with
            | some v4 =>
              (b64DecodeChars rest).map
                (fun ds => (v1 * 4 + v2 / 16) :: (v2 % 16 * 16 + v3 / 4) :: (v3 % 4 * 64 + v4) :: ds)
            | none => none
        | none => none
    | _, _ => none
  | _ => none

/-! ### The file seen by the content readers

The content readers operate on one file: its path, the outcome of `fs.stat`,
of a binary `fs.readFile`, and of `fs.readFile(path, 'utf8')`.  An `error`
value carries the JS `error.message`. -/

structure JsFile where
  path : String
  stat : Except String StatInfo
  bytes : Except String (List Nat)
  utf8 : Except String String

/-- The descriptor built by both `readFileContent` variants
(file_explorer_app.js initialises every field except `downloadable`, which
only its `.pdf` branch ever assigns; an unassigned JS field is `undefined`,
modelled as `false`). -/
structure FileInfo where
  size : Nat
  modified : Nat
  type : String
  isText : Bool
  isBinary : Bool
  content : String
  error : Option String
  downloadable : Bool
deriving DecidableEq

/-! ### file_explorer_app.js: `readFileContent` and its helpers -/

/-- `processExcelFile` of file_explorer_app.js: reads the file only to show
its byte length inside an explanatory text; its own `catch` turns a read
error into an error text, so the function never throws. -/
def feProcessExcelFile (f : JsFile) : String :=
  match f.bytes with
  | .ok buffer =>
    "Excel File Detected\n===================\n\nFile: " ++ pathBasename f.path ++
      "\nSize: " ++ toString buffer.length ++
      " bytes\n\nThis is an Excel file (.xlsx/.xls). To properly view the content, you would need:\n\n1. Microsoft Excel\n2. LibreOffice Calc  \n3. Google Sheets\n4. Online Excel viewer\n\nThe file contains spreadsheet data with tables, formulas, and formatting that cannot be displayed as plain text.\n\nNote: Full Excel parsing requires additional libraries like \x27xlsx\x27 or \x27exceljs\x27 to extract worksheet data, formulas, and formatting."
  | .error e => "Error reading Excel file: " ++ e

/-- `processDocxFile` of file_explorer_app.js (same shape as the Excel
helper). -/
def feProcessDocxFile (f : JsFile) : String :=
  match f.bytes with
  | .ok buffer =>
    "Word Document Detected\n======================\n\nFile: " ++ pathBasename f.path ++
      "\nSize: " ++ toString buffer.length ++
      " bytes\n\nThis is a Microsoft Word document (.docx). To properly view the content, you would need:\n\n1. Microsoft Word\n2. LibreOffice Writer\n3. Google Docs\n4. Online Word viewer\n\nThe file contains formatted text, images, tables, and other rich content that cannot be fully displayed as plain text.\n\nNote: Full DOCX text extraction requires libraries like \x27mammoth\x27 or \x27docx-parser\x27 to extract the document content while preserving formatting."
  | .error e => "Error reading Word document: " ++ e

/-- `processPptFile` of file_explorer_app.js. -/
def feProcessPptFile (f : JsFile) : String :=
  match f.bytes with
  | .ok buffer =>
    "PowerPoint Presentation Detected\n===============================\n\nFile: " ++
      pathBasename f.path ++ "\nSize: " ++ toString buffer.length ++ " bytes\nFormat: " ++
      (if asciiLower (extname f.path) = ".pptx" then "PowerPoint 2007+ (PPTX)"
       else "PowerPoint Legacy (PPT)") ++
      "\n\nThis is a Microsoft PowerPoint presentation. To properly view the content, you would need:\n\n1. Microsoft PowerPoint\n2. LibreOffice Impress\n3. Google Slides\n4. Online PowerPoint viewer\n\nThe file contains slides with text, images, animations, and other multimedia content that cannot be displayed as plain text.\n\nNote: PowerPoint file parsing requires specialized libraries to extract slide content, speaker notes, and embedded media."
  | .error e => "Error reading PowerPoint file: " ++ e

/-- `readFileContent` of file_explorer_app.js.  `fs.stat` runs before the
`try`, so a stat failure propagates (`Except.error`); inside the `try` the
switch dispatches on the lower-cased extension, and the `catch` applies only
to exceptions that escape the branch — the office helpers above swallow
theirs, so in practice only the default text branch can reach it. -/
def feReadFileContent (f : JsFile) : Except String FileInfo :=
  let ext := asciiLower (extname f.path)
  match f.stat with
  | .error e => .error e
  | .ok stats =>
    let base : FileInfo :=
      ⟨stats.size, stats.mtime, extType ext, false, false, "", none, false⟩
    if ext = ".pdf" then
      .ok { base with
            isBinary := true
            content := "PDF files require a PDF viewer. The file is available for download but cannot be displayed as text in this interface."
            downloadable := true }
    else if ext = ".xlsx" ∨ ext = ".xls" then
      .ok { base with isBinary := true, content := feProcessExcelFile f }
    else if ext = ".docx" then
      .ok { base with isBinary := true, content := feProcessDocxFile f }
    else if ext = ".doc" then
      .ok { base with
            isBinary := true
            content := "Legacy DOC files require Microsoft Word or a compatible application. Please convert to DOCX format for text extraction." }
    else if ext = ".pptx" ∨ ext = ".ppt" then
      .ok { base with isBinary := true, content := feProcessPptFile f }
    else
      match f.utf8 with
      | .ok content => .ok { base with isText := true, content := content }
      | .error msg =>
        .ok { base with
              isText := true
              error := some ("Error reading file: " ++ msg)
              content := "Unable to read file content. The file may be corrupted or in an unsupported format." }

/-! ### enhanced_server.js: `readFileContent` with optional extractors -/

/-- Which of the optional libraries loaded at startup. -/
structure Extractors where
  pdfParse : Bool
  xlsx : Bool
  mammoth : Bool

/-- Integer rendering of `formatBytes` of enhanced_server.js (the original
computes the unit with floating-point `log` and `toFixed(2)`; the claims
never inspect a string built from it, so the two decimal places are not
modelled). -/
def formatBytes (bytes : Nat) : String :=
  if bytes = 0 then "0 Bytes"
  else
    let i := Nat.log 1024 bytes
    toString (bytes / 1024 ^ i) ++ " " ++ ["Bytes", "KB", "MB", "GB", "TB"].getD i ""

/-- `processPptFile` of enhanced_server.js: builds an informational text
from the buffer, extension and stat; its own `catch` makes it total. -/
def enProcessPptFile (f : JsFile) : String :=
  match f.bytes with
  | .error e => "Error accessing PowerPoint file: " ++ e
  | .ok buffer =>
    match f.stat with
    | .error e => "Error accessing PowerPoint file: " ++ e
    | .ok stats =>
      "PowerPoint Presentation\n========================\n\nFile: " ++
        pathBasename f.path ++ "\nFormat: " ++
        (if asciiLower (extname f.path) = ".pptx" then "PowerPoint 2007+ (PPTX)"
         else "PowerPoint Legacy (PPT)") ++
        "\nSize: " ++ formatBytes buffer.length ++ "\nLast Modified: " ++
        toString stats.mtime ++
        "\n\nPowerPoint Content Extraction:\n-----------------------------\n\nFull PowerPoint text extraction requires specialized libraries.\n\nFor complete slide content extraction, consider using:\n- python-pptx (Python)\n- Apache POI (Java)\n- Online PowerPoint to text converters\n\nThis file is available for download to view in:\n- Microsoft PowerPoint\n- LibreOffice Impress  \n- Google Slides\n- Online PowerPoint viewers\n\nThe presentation may contain:\n- Multiple slides with text content\n- Images and multimedia\n- Animations and transitions\n- Speaker notes\n- Embedded charts and tables"

/-- `readFileContent` of enhanced_server.js.  The branches taken when an
extractor IS present call the optional third-party library (an external
collaborator, out of scope per the spec), so their output strings are
abstracted as the parameters `pdfRich`, `xlsxRich`, `docxRich`; every
claim about this function concerns the extractor-absent branches, which are
modelled exactly. -/
def enReadFileContent (ex : Extractors) (pdfRich xlsxRich docxRich : JsFile → String)
    (f : JsFile) : Except String FileInfo :=
  let ext := asciiLower (extname f.path)
  match f.stat with
  | .error e => .error e
  | .ok stats =>
    let base : FileInfo :=
      ⟨stats.size, stats.mtime, extType ext, false, false, "", none, false⟩
    if ext = ".pdf" then
      .ok { base with
            isBinary := true
            downloadable := true
            content :=
              if ex.pdfParse then pdfRich f
              else "PDF Processing Unavailable\n\nTo enable PDF text extraction, install the pdf-parse library:\nnpm install pdf-parse\n\nThe file is available for download." }
    else if ext = ".xlsx" ∨ ext = ".xls" then
      .ok { base with
            isBinary := true
            downloadable := true
            content :=
              if ex.xlsx then xlsxRich f
              else "Excel Processing Unavailable\n\nTo enable Excel file reading, install the xlsx library:\nnpm install xlsx\n\nThe file is available for download." }
    else if ext = ".docx" then
      .ok { base with
            isBinary := true
            downloadable := true
            content :=
              if ex.mammoth then docxRich f
              else "Word Document Processing Unavailable\n\nTo enable DOCX text extraction, install the mammoth library:\nnpm install mammoth\n\nThe file is available for download." }
    else if ext = ".doc" then
      .ok { base with
            isBinary := true
            downloadable := true
            content := "Legacy DOC Format\n\nLegacy .DOC files are not supported for text extraction.\nPlease convert to .DOCX format or use Microsoft Word.\n\nThe file is available for download." }
    else if ext = ".pptx" ∨ ext = ".ppt" then
      .ok { base with
            isBinary := true
            downloadable := true
            content := enProcessPptFile f }
    else
      match f.utf8 with
      | .ok content => .ok { base with isText := true, content := content }
      | .error msg =>
        .ok { base with
              isText := true
              error := some ("Error reading file: " ++ msg)
              content := "Unable to read file content: " ++ msg ++
                "\n\nThe file may be:\n- Corrupted\n- Password protected\n- In an unsupported format\n- Too large to process" }

/-! ### The first unnamed variant: `GET /api/file/:filePath(*)` -/

/-- The descriptor of the simple file endpoint: `downloadable` is
initialised `true` for every file. -/
structure P0FileInfo where
  name : String
  size : Nat
  modified : Nat
  type : String
  content : String
  isText : Bool
  isImage : Bool
  downloadable : Bool
deriving DecidableEq

/-- `getFileTypeName` of the simple variant. -/
def p0GetFileTypeName (ext : String) : String :=
  if ext = ".txt" then "Text File"
  else if ext = ".csv" then "CSV Spreadsheet"
  else if ext = ".xlsx" then "Excel Spreadsheet"
  else if ext = ".xls" then "Excel Spreadsheet (Legacy)"
  else if ext = ".docx" then "Word Document"
  else if ext = ".doc" then "Word Document (Legacy)"
  else if ext = ".pdf" then "PDF Document"
  else if ext = ".jpg" then "JPEG Image"
  else if ext = ".png" then "PNG Image"
  else "Unknown File"

/-- Integer rendering of `formatFileSize` of the simple variant (same
floating-point caveat as `formatBytes`; no claim inspects it). -/
def formatFileSize (bytes : Nat) : String :=
  if bytes = 0 then "0 Bytes"
  else
    let i := Nat.log 1024 bytes
    toString (bytes / 1024 ^ i) ++ " " ++ ["Bytes", "KB", "MB", "GB"].getD i ""

inductive P0Resp where
  | ok (info : P0FileInfo)
  | accessDenied
  | serverError (msg : String)
deriving DecidableEq

/-- `GET /api/file/:filePath(*)` of the simple variant with a configured
root: guard, `stat`, then dispatch on the lower-cased extension — utf8 text
for `.txt`/`.csv`, a base64 data URI for `.jpg`/`.png` (with the `jpg` to
`jpeg` MIME fix-up), and an informational text for everything else; any
exception becomes a 500 with the message (`serverError`). -/
def p0FileEndpoint (root filePath : String) (f : JsFile) : P0Resp :=
  match pathGuard root filePath with
  | none => P0Resp.accessDenied
  | some _ =>
    match f.stat with
    | .error e => P0Resp.serverError e
    | .ok stats =>
      let fullPath := root ++ "/" ++ filePath
      let ext := asciiLower (extname fullPath)
      let base : P0FileInfo :=
        ⟨pathBasename fullPath, stats.size, stats.mtime, extType ext, "", false, false, true⟩
      if ext = ".txt" ∨ ext = ".csv" then
        match f.utf8 with
        | .ok c => P0Resp.ok { base with content := c, isText := true }
        | .error e => P0Resp.serverError e
      else if ext = ".jpg" ∨ ext = ".png" then
        match f.bytes with
        | .ok buffer =>
          P0Resp.ok { base with
            isImage := true
            content := "data:image/" ++
              (if extType ext = "jpg" then "jpeg" else extType ext) ++
              ";base64," ++ base64String buffer }
        | .error e => P0Resp.serverError e
      else
        P0Resp.ok { base with
          content := "File: " ++ base.name ++ "\nType: " ++ p0GetFileTypeName ext ++
            "\nSize: " ++ formatFileSize base.size ++ "\nModified: " ++
            toString base.modified ++
            "\n\nThis file type requires specialized software to view properly.\nUse the download button to save the file locally." }

/-! ### `POST /api/set-root` -/

/-- Outcome of a set-root request: HTTP status, the root configuration after
the call, and the `rootPath`/`folderName` of a success body. -/
structure SetRootOutcome where
  status : Nat
  root : Option String
  rootPath : Option String
  folderName : Option String
deriving DecidableEq

/-- `POST /api/set-root` (identical in file_explorer_app.js,
enhanced_server.js and both unnamed variants): reject a missing or falsy
`folderPath` (400), `stat` it — a thrown stat is caught as 400 — reject a
non-directory (400), and only then assign `ROOT_FOLDER = path.resolve(folderPath)`
and answer 200 with `rootPath` and `folderName`.  `statFn` is the ambient
filesystem's stat, `cwd` the process working directory. -/
def setRoot (statFn : String → Except String StatInfo) (cwd : String)
    (oldRoot : Option String) (folderPath : Option String) : SetRootOutcome :=
  match folderPath with
  | none => ⟨400, oldRoot, none, none⟩
  | some p =>
    if p = "" then ⟨400, oldRoot, none, none⟩
    else
      match statFn p with
      | .error _ => ⟨400, oldRoot, none, none⟩
      | .ok st =>
        if st.isDirectory then
          let r := resolvePath cwd p
          ⟨200, some r, some r, some (pathBasename r)⟩
        else ⟨400, oldRoot, none, none⟩

/-! ### Sanity checks of the embedding -/

example : resolveAbs "/root/a/../b" = "/root/b" := by decide
example : resolveAbs "/root/../../etc" = "/etc" := by decide
example : pathGuard "/root" "sub/f.txt" = some "/root/sub/f.txt" := by decide
example : pathGuard "/root" "" = some "/root" := by decide
example : extname "/r/a.txt" = ".txt" := by decide
example : extname "/r/.bashrc" = "" := by decide
example : extname "/r/archive.tar.gz" = ".gz" := by decide
example : base64String [77, 97, 110] = "TWFu" := by decide
example : base64String [77, 97] = "TWE=" := by decide
example :
    feGetFolderStructure
      (FS.dir [("a", FS.dir [("b", FS.dir [])]), ("z.txt", FS.file [1])]) =
      [FeFolder.mk "a" [FeFolder.mk "b" []]] := by decide
example : feGetFolderStructure FS.unreadableDir = [] := by decide

theorem jsStrLeChars_total :
    ∀ as bs : List Char, jsStrLeChars as bs = true ∨ jsStrLeChars bs as = true := by
  intro as
  induction as with
  | nil => intro bs; exact Or.inl rfl
  | cons a as ih =>
    intro bs
    cases bs with
    | nil => exact Or.inr rfl
    | cons b bs =>
      rcases Nat.lt_trichotomy a.toNat b.toNat with h | h | h
      · exact Or.inl (by simp [jsStrLeChars, h])
      · rcases ih bs with h' | h'
        · exact Or.inl (by simp [jsStrLeChars, h, h'])
        · exact Or.inr (by simp [jsStrLeChars, h.symm, h'])
      · exact Or.inr (by simp [jsStrLeChars, h])

theorem jsStrLeChars_cons {a b : Char} {as bs : List Char} :
    jsStrLeChars (a :: as) (b :: bs) = true ↔
      a.toNat < b.toNat ∨ (a.toNat = b.toNat ∧ jsStrLeChars as bs = true) := by
  simp only [jsStrLeChars]
  split_ifs with h₁ h₂
  · simp [h₁]
  · simp [h₁, h₂]
  · simp [h₁, h₂]

theorem jsStrLeChars_trans :
    ∀ as bs cs : List Char, jsStrLeChars as bs = true → jsStrLeChars bs cs = true →
      jsStrLeChars as cs = true := by
  intro as
  induction as with
  | nil => intro bs cs _ _; rfl
  | cons a as ih =>
    intro bs cs h₁ h₂
    cases bs with
    | nil => simp [jsStrLeChars] at h₁
    | cons b bs =>
      cases cs with
      | nil => simp [jsStrLeChars] at h₂
      | cons c cs =>
        rw [jsStrLeChars_cons] at h₁ h₂ ⊢
        rcases h₁ with h₁ | ⟨h₁e, h₁r⟩ <;> rcases h₂ with h₂ | ⟨h₂e, h₂r⟩
        · exact Or.inl (by omega)
        · exact Or.inl (by omega)
        · exact Or.inl (by omega)
        · exact Or.inr ⟨by omega, ih bs cs h₁r h₂r⟩

theorem fsaLe_total (a b : FsaNode) : fsaLe a b ∨ fsaLe b a := by
  by_cases h : a.isFolder = b.isFolder
  · rcases jsStrLeChars_total a.nodeName.data b.nodeName.data with h' | h'
    · exact Or.inl (Or.inr ⟨h, h'⟩)
    · exact Or.inr (Or.inr ⟨h.symm, h'⟩)
  · cases ha : a.isFolder <;> cases hb : b.isFolder
    · rw [ha, hb] at h; exact absurd rfl h
    · exact Or.inr (Or.inl ⟨hb, ha⟩)
    · exact Or.inl (Or.inl ⟨ha, hb⟩)
    · rw [ha, hb] at h; exact absurd rfl h

theorem fsaLe_trans (a b c : FsaNode) (hab : fsaLe a b) (hbc : fsaLe b c) :
    fsaLe a c := by
  rcases hab with ⟨ha1, hb0⟩ | ⟨hab', hnab⟩ <;>
    rcases hbc with ⟨hb1, hc0⟩ | ⟨hbc', hnbc⟩
  · rw [hb0] at hb1; cases hb1
  · exact Or.inl ⟨ha1, hbc'.symm.trans hb0⟩
  · exact Or.inl ⟨hab'.trans hb1, hc0⟩
  · exact Or.inr ⟨hab'.trans hbc', jsStrLeChars_trans _ _ _ hnab hnbc⟩

/-! ### Lemmas about the path model -/

theorem splitSegsAux_append (a b : List Char) (cur : List Char) :
    splitSegsAux (a ++ '/' :: b) cur = splitSegsAux a cur ++ splitSegsAux b [] := by
  induction a generalizing cur with
  | nil => simp [splitSegsAux]
  | cons c a ih =>
    by_cases hc : c = '/'
    · subst hc; simp [splitSegsAux, ih]
    · simp [splitSegsAux, hc, ih]

theorem segsOf_append (s t : String) :
    segsOf (s ++ "/" ++ t) = segsOf s ++ segsOf t := by
  have hd : (s ++ "/" ++ t).data = s.data ++ '/' :: t.data := by
    simp [String.data_append]
  simp only [segsOf, hd, splitSegsAux_append]

theorem normAux_append (xs ys : List String) (acc : List String) :
    normAux (xs ++ ys) acc = normAux ys (normAux xs acc) := by
  induction xs generalizing acc with
  | nil => rfl
  | cons x xs ih =>
    simp only [List.cons_append, normAux]
    split_ifs <;> exact ih _

theorem normAux_no_dotdot (ys : List String) (h : ∀ s ∈ ys, s ≠ "..") (acc : List String) :
    normAux ys acc = (ys.filter keepSeg).reverse ++ acc := by
  induction ys generalizing acc with
  | nil => simp [normAux]
  | cons y ys ih =>
    have hy : y ≠ ".." := h y (List.mem_cons_self y ys)
    have hrest : ∀ s ∈ ys, s ≠ ".." := fun s hs => h s (List.mem_cons_of_mem y hs)
    by_cases hk : y = "" ∨ y = "."
    · have : keepSeg y = false := by
        rcases hk with hk | hk <;> simp [keepSeg, hk]
      simp [normAux, hk, ih hrest, List.filter_cons, this]
    · have : keepSeg y = true := by
        simp [keepSeg]
        constructor
        · intro he; exact hk (Or.inl he)
        · intro he; exact hk (Or.inr he)
      simp [normAux, hk, hy, ih hrest, List.filter_cons, this]

/-- The canonical segments of `root ++ "/" ++ p` extend those of `root`
whenever `p` has no `..` segment. -/
theorem normAbs_join_no_dotdot (root p : String) (h : ∀ s ∈ segsOf p, s ≠ "..") :
    normAbs (segsOf (root ++ "/" ++ p)) =
      normAbs (segsOf root) ++ (segsOf p).filter keepSeg := by
  rw [segsOf_append]
  unfold normAbs
  rw [normAux_append, normAux_no_dotdot _ h]
  simp

theorem joinSegs_data_extend (l rest : List String) :
    (joinSegs l).data <+: (joinSegs (l ++ rest)).data := by
  induction l with
  | nil => simp [joinSegs]
  | cons s l ih =>
    cases l with
    | nil =>
      cases rest with
      | nil => simp
      | cons r rs =>
        simp only [List.singleton_append, joinSegs, String.data_append]
        exact ⟨'/' :: (joinSegs (r :: rs)).data, by simp⟩
    | cons t l' =>
      obtain ⟨suf, hsuf⟩ := ih
      refine ⟨suf, ?_⟩
      simp only [List.cons_append, joinSegs, String.data_append] at hsuf ⊢
      simp [← hsuf]

theorem jsStartsWith_pathOfSegs_append (l rest : List String) :
    jsStartsWith (pathOfSegs (l ++ rest)) (pathOfSegs l) = true := by
  unfold jsStartsWith pathOfSegs
  rw [List.isPrefixOf_iff_prefix]
  simp only [String.data_append]
  exact List.cons_prefix_cons.mpr ⟨rfl, joinSegs_data_extend l rest⟩

/-- Shared core of the guard's positive direction: whenever the canonical
join extends the canonical root segment-by-segment, the `startsWith` check
passes and the guard hands back the canonical join. -/
theorem pathGuard_of_extends (root p : String)
    (h : ∃ rest, normAbs (segsOf (root ++ "/" ++ p)) = normAbs (segsOf root) ++ rest) :
    pathGuard root p = some (resolveAbs (root ++ "/" ++ p)) := by
  obtain ⟨rest, hr⟩ := h
  unfold pathGuard
  have hsw : jsStartsWith (resolveAbs (root ++ "/" ++ p)) (resolveAbs root) = true := by
    unfold resolveAbs
    rw [hr]
    exact jsStartsWith_pathOfSegs_append _ _
  simp [hsw]

/-! ### Lemmas about base64 -/

theorem b64CharVal_b64Char : ∀ n, n < 64 → b64CharVal (b64Char n) = some n := by
  decide

theorem b64Char_ne_pad : ∀ n, n < 64 → b64Char n ≠ '=' := by
  decide

/-- Decoding inverts encoding on genuine byte lists. -/
theorem b64_roundtrip : ∀ bytes : List Nat, (∀ x ∈ bytes, x < 256) →
    b64DecodeChars (b64EncodeChars bytes) = some bytes
  | [], _ => rfl
  | [a], h => by
    have ha : a < 256 := h a (by simp)
    have h1 := b64CharVal_b64Char (a / 4) (by omega)
    have h2 := b64CharVal_b64Char (a % 4 * 16) (by omega)
    simp only [b64EncodeChars, b64DecodeChars, h1, h2]
    simp
    omega
  | [a, b], h => by
    have ha : a < 256 := h a (by simp)
    have hb : b < 256 := h b (by simp)
    have h1 := b64CharVal_b64Char (a / 4) (by omega)
    have h2 := b64CharVal_b64Char (a % 4 * 16 + b / 16) (by omega)
    have h3 := b64CharVal_b64Char (b % 16 * 4) (by omega)
    have hne3 := b64Char_ne_pad (b % 16 * 4) (by omega)
    simp only [b64EncodeChars, b64DecodeChars, h1, h2, h3, if_neg hne3]
    simp
    omega
  | a :: b :: c :: rest, h => by
    have ha : a < 256 := h a (by simp)
    have hb : b < 256 := h b (by simp)
    have hc : c < 256 := h c (by simp)
    have ih := b64_roundtrip rest (fun x hx => h x (by simp [hx]))
    have h1 := b64CharVal_b64Char (a / 4) (by omega)
    have h2 := b64CharVal_b64Char (a % 4 * 16 + b / 16) (by omega)
    have h3 := b64CharVal_b64Char (b % 16 * 4 + c / 64) (by omega)
    have h4 := b64CharVal_b64Char (c % 64) (by omega)
    have hne3 := b64Char_ne_pad (b % 16 * 4 + c / 64) (by omega)
    have hne4 := b64Char_ne_pad (c % 64) (by omega)
    cases rest with
    | nil =>
      simp only [b64EncodeChars, b64DecodeChars, h1, h2, h3, h4, if_neg hne3, if_neg hne4]
      simp
      omega
    | cons r rs =>
      simp only [b64EncodeChars] at ih ⊢
      simp only [b64DecodeChars, h1, h2, h3, h4, if_neg hne3, if_neg hne4, ih,
        Option.map_some]
      simp
      omega

/-! ### Lemmas about the enumerators -/

/-- Every directory-typed entry of a listed directory appears in
`feGetFolderStructure`'s output with its recursively enumerated subtree. -/
theorem feChildren_mem :
    ∀ (entries : List (String × FS)) (s : String) (c : FS), (s, c) ∈ entries →
      c.isDirType = true →
      FeFolder.mk s (feGetFolderStructure c) ∈ feChildren entries := by
  intro entries
  induction entries with
  | nil => intro s c hm; cases hm
  | cons e rest ih =>
    intro s c hm hc
    obtain ⟨n, ch⟩ := e
    rcases List.mem_cons.mp hm with he | hm'
    · obtain ⟨hs, hch⟩ := Prod.mk.injEq .. ▸ he
      subst hs; subst hch
      simp [feChildren, hc]
    · have hrec := ih s c hm' hc
      cases hch : ch.isDirType <;> simp [feChildren, hch]
      · exact hrec
      · exact Or.inr hrec

theorem fsaListClean_iff (l : List FsaNode) :
    fsaListClean l = true ↔ ∀ x ∈ l, fsaNodeClean x = true := by
  induction l with
  | nil => simp [fsaListClean]
  | cons x xs ih => simp [fsaListClean, ih]

/-- The entry loop only emits nodes with non-excluded names, as long as the
recursive callback does. -/
theorem fsaLoop_clean (rec : String → FS → Option (List FsaNode))
    (hrec : ∀ d c l, rec d c = some l → fsaListClean l = true) (dirPath : String) :
    ∀ (entries : List (String × FS)) (l : List FsaNode),
      fsaLoop rec dirPath entries = some l → fsaListClean l = true := by
  intro entries
  induction entries with
  | nil =>
    intro l h
    simp only [fsaLoop] at h
    cases h
    rfl
  | cons e rest ih =>
    intro l h
    obtain ⟨n, ch⟩ := e
    simp only [fsaLoop] at h
    by_cases hskip : skipEntry n
    · rw [if_pos hskip] at h
      exact ih l h
    · rw [if_neg hskip] at h
      cases hst : ch.statOf with
      | none => simp only [hst] at h; cases h
      | some st =>
        simp only [hst] at h
        by_cases hdir : st.isDirectory = true
        · rw [if_pos hdir] at h
          obtain ⟨l', hl', rfl⟩ := Option.map_eq_some'.mp h
          have hchildren :
              fsaListClean ((rec (dirPath ++ "/" ++ n) ch).getD []) = true := by
            cases hc : rec (dirPath ++ "/" ++ n) ch with
            | none => rfl
            | some lc => exact hrec _ _ _ hc
          simp only [fsaListClean, fsaNodeClean, hchildren, Bool.and_true,
            Bool.and_eq_true]
          exact ⟨by simp [hskip], ih l' hl'⟩
        · rw [if_neg hdir] at h
          obtain ⟨l', hl', rfl⟩ := Option.map_eq_some'.mp h
          simp only [fsaListClean, fsaNodeClean, Bool.and_eq_true]
          exact ⟨by simp [hskip], ih l' hl'⟩

/-! ### Claim C1 -/

/-- C1, counterexample: the claim says the guard signals AccessDenied
whenever the canonicalized join of root and path resolves outside the root,
and that the containment comparison is on path segments so `/root-evil`
against root `/root` is rejected.  In fact the guard compares raw strings
with `startsWith`: for root `/root` and relative path `../root-evil` the
canonical join `/root-evil` lies outside the root on segments, yet the
guard accepts it and the folder endpoint goes on to read the directory. -/
theorem c1_counterexample :
    pathGuard "/root" "../root-evil" = some "/root-evil" ∧
    insideRoot "/root" "/root-evil" = false ∧
    foldersEndpoint (fun _ => FS.dir []) "/root" "../root-evil" =
      FoldersResp.ok ⟨[], []⟩ := by
  decide

/-- C1, amended: the guard's containment comparison is a raw string
`startsWith`, not a segment comparison.  It still (a) yields the canonical
joined path whenever the canonical join extends the canonical root
segment-by-segment (in particular for every path that stays inside the
root), and (b) answers 403 with no filesystem read whenever the canonical
join does not even extend the root as a string — which covers every `..`
traversal except those landing on a sibling whose name extends the root's
last segment as a string, such as `/root-evil`. -/
theorem c1_amended_guard (root p : String) :
    ((∃ rest, normAbs (segsOf (root ++ "/" ++ p)) = normAbs (segsOf root) ++ rest) →
      pathGuard root p = some (resolveAbs (root ++ "/" ++ p))) ∧
    (jsStartsWith (resolveAbs (root ++ "/" ++ p)) (resolveAbs root) = false →
      pathGuard root p = none ∧
      ∀ world, foldersEndpoint world root p = FoldersResp.accessDenied) := by
  constructor
  · exact pathGuard_of_extends root p
  · intro hsw
    have hnone : pathGuard root p = none := by
      unfold pathGuard
      simp [hsw]
    exact ⟨hnone, fun world => by simp [foldersEndpoint, hnone]⟩

/-- Witness for `c1_amended_guard` at concrete inputs: a contained path is
resolved, a genuine traversal is denied. -/
theorem c1_amended_guard_witness :
    pathGuard "/root" "docs" = some "/root/docs" ∧
    pathGuard "/root" "../../etc/passwd" = none := by
  constructor
  · have h := (c1_amended_guard "/root" "docs").1 ⟨["docs"], by decide⟩
    rwa [show resolveAbs ("/root" ++ "/" ++ "docs") = "/root/docs" from by decide] at h
  · exact ((c1_amended_guard "/root" "../../etc/passwd").2 (by decide)).1

/-! ### Claim C9 -/

/-- C9, counterexample: the claim says a caller-supplied absolute path is
re-rooted inside the root, so the resolved path handed to the containment
check and to the filesystem read never refers to the literal absolute
location outside the root.  For root `/root` and the absolute input
`/../root-evil`, the resolved join equals the literal absolute location
`/root-evil`, which is outside the root on segments — and the guard passes
it, so the read happens there. -/
theorem c9_counterexample :
    isAbsolute "/../root-evil" = true ∧
    resolveAbs ("/root" ++ "/" ++ "/../root-evil") = resolveAbs "/../root-evil" ∧
    insideRoot "/root" (resolveAbs "/../root-evil") = false ∧
    pathGuard "/root" "/../root-evil" = some "/root-evil" ∧
    foldersEndpoint (fun _ => FS.dir []) "/root" "/../root-evil" =
      FoldersResp.ok ⟨[], []⟩ := by
  decide

/-- C9, amended: `path.join` interprets the caller path relative to the
root, so any input whose segments contain no `..` — absolute inputs such as
`/etc/passwd` included — is re-rooted inside the root: the canonical join
is the canonical root followed by the input's own (cleaned) segments, and
the guard hands back exactly that contained path.  Absolute inputs that do
contain `..` can still resolve to their literal location outside the
root. -/
theorem c9_amended_rerooting (root p : String) (h : ∀ s ∈ segsOf p, s ≠ "..") :
    normAbs (segsOf (root ++ "/" ++ p)) =
      normAbs (segsOf root) ++ (segsOf p).filter keepSeg ∧
    pathGuard root p = some (resolveAbs (root ++ "/" ++ p)) := by
  have hjoin := normAbs_join_no_dotdot root p h
  exact ⟨hjoin, pathGuard_of_extends root p ⟨(segsOf p).filter keepSeg, hjoin⟩⟩

/-- Witness for `c9_amended_rerooting`: the absolute input `/etc/passwd`
against root `/root` is re-rooted to `/root/etc/passwd`. -/
theorem c9_amended_rerooting_witness :
    normAbs (segsOf ("/root" ++ "/" ++ "/etc/passwd")) =
      normAbs (segsOf "/root") ++ (segsOf "/etc/passwd").filter keepSeg ∧
    pathGuard "/root" "/etc/passwd" = some (resolveAbs ("/root" ++ "/" ++ "/etc/passwd")) :=
  c9_amended_rerooting "/root" "/etc/passwd" (by decide)

/-! ### Claim C10 -/

/-- C10: the folders-only enumerator is a total function — on every
filesystem node, readable or not, it returns a folder list — so
`GET /api/home-structure` with a configured root always answers 200 with a
list, and an unreadable root yields the empty list rather than a 500. -/
theorem c10_home_structure_total :
    (∀ fs : FS, (homeStructureEndpoint (some fs)).isOk = true) ∧
    (∀ fs : FS, homeStructureEndpoint (some fs) = HomeResp.ok (feGetFolderStructure fs)) ∧
    homeStructureEndpoint (some FS.unreadableDir) = HomeResp.ok [] :=
  ⟨fun _ => rfl, fun _ => rfl, rfl⟩

/-! ### Claim C7 -/

/-- C7: `POST /api/set-root` validates before mutating.  A missing body, a
candidate whose `stat` fails, or a non-directory all produce a 400 and
leave the previous root configuration untouched; an existing directory
replaces the root with its canonicalized form and answers 200 carrying
`rootPath` and `folderName`. -/
theorem c7_set_root (statFn : String → Except String StatInfo) (cwd : String)
    (oldRoot : Option String) (p : String) :
    setRoot statFn cwd oldRoot none = ⟨400, oldRoot, none, none⟩ ∧
    ((p = "" ∨ (∃ e, statFn p = Except.error e) ∨
        (∃ st, statFn p = Except.ok st ∧ st.isDirectory = false)) →
      setRoot statFn cwd oldRoot (some p) = ⟨400, oldRoot, none, none⟩) ∧
    (∀ st, p ≠ "" → statFn p = Except.ok st → st.isDirectory = true →
      setRoot statFn cwd oldRoot (some p) =
        ⟨200, some (resolvePath cwd p), some (resolvePath cwd p),
          some (pathBasename (resolvePath cwd p))⟩) := by
  refine ⟨rfl, ?_, ?_⟩
  · intro h
    rcases h with h | ⟨e, he⟩ | ⟨st, hst, hdir⟩
    · simp [setRoot, h]
    · by_cases hp : p = ""
      · simp [setRoot, hp]
      · simp [setRoot, hp, he]
    · by_cases hp : p = ""
      · simp [setRoot, hp]
      · simp [setRoot, hp, hst, hdir]
  · intro st hp hst hdir
    simp [setRoot, hp, hst, hdir]

/-- Witness for `c7_set_root`: an existing directory is installed (200), a
missing path is rejected (400) with the old root kept. -/
theorem c7_set_root_witness :
    setRoot
        (fun s => if s = "/srv/data" then Except.ok ⟨true, 0, 0⟩
                  else Except.error "ENOENT")
        "/cwd" (some "/old") (some "/srv/data") =
      ⟨200, some "/srv/data", some "/srv/data", some "data"⟩ ∧
    setRoot
        (fun s => if s = "/srv/data" then Except.ok ⟨true, 0, 0⟩
                  else Except.error "ENOENT")
        "/cwd" (some "/old") (some "/nope") =
      ⟨400, some "/old", none, none⟩ := by
  constructor
  · have h := (c7_set_root
        (fun s => if s = "/srv/data" then Except.ok ⟨true, 0, 0⟩
                  else Except.error "ENOENT")
        "/cwd" (some "/old") "/srv/data").2.2 ⟨true, 0, 0⟩ (by decide) (by decide) rfl
    rwa [show resolvePath "/cwd" "/srv/data" = "/srv/data" from by decide,
      show pathBasename "/srv/data" = "data" from by decide] at h
  · exact (c7_set_root
        (fun s => if s = "/srv/data" then Except.ok ⟨true, 0, 0⟩
                  else Except.error "ENOENT")
        "/cwd" (some "/old") "/nope").2.1
      (Or.inr (Or.inl ⟨"ENOENT", by decide⟩))

/-! ### Claim C3 -/

/-- C3, counterexample: the claim says a race-deleted child degrades to an
empty-children folder node with its siblings still listed.  In
folder_structure_app.js the per-entry `stat` runs inside the level's single
try block, so a child whose `stat` fails (race-deleted `ghost`) makes the
whole level return `null`: neither the child nor its sibling `keep` is
listed. -/
theorem c3_counterexample :
    fsaGetFolderStructure 3 "/root"
      (FS.dir [("gone", FS.ghost true), ("keep", FS.dir [])]) = none := by
  decide

/-- C3, amended: in the `withFileTypes`-based enumerator
(file_explorer_app.js and the unnamed variants) the claim holds as stated —
an unreadable child appears as a folder node with an empty child list and
every sibling directory entry is still listed — and in
folder_structure_app.js it holds for children whose `readdir` fails
(permission denied) but not for children whose `stat` fails, which abort
the whole level. -/
theorem c3_amended_unreadable_child (entries : List (String × FS)) (nm : String)
    (hmem : (nm, FS.unreadableDir) ∈ entries) :
    FeFolder.mk nm [] ∈ feGetFolderStructure (FS.dir entries) ∧
    (∀ (s : String) (c : FS), (s, c) ∈ entries → c.isDirType = true →
      FeFolder.mk s (feGetFolderStructure c) ∈ feGetFolderStructure (FS.dir entries)) ∧
    fsaGetFolderStructure 3 "/r" (FS.dir [("c", FS.unreadableDir), ("s", FS.dir [])]) =
      some [FsaNode.folder "c" "/r/c" [], FsaNode.folder "s" "/r/s" []] := by
  have key : ∀ (s : String) (c : FS), (s, c) ∈ entries → c.isDirType = true →
      FeFolder.mk s (feGetFolderStructure c) ∈ feGetFolderStructure (FS.dir entries) := by
    intro s c hm hc
    have hun : feGetFolderStructure (FS.dir entries) = feChildren entries := by
      simp [feGetFolderStructure]
    rw [hun]
    exact feChildren_mem entries s c hm hc
  have hu : feGetFolderStructure FS.unreadableDir = [] := by decide
  exact ⟨hu ▸ key nm FS.unreadableDir hmem rfl, key, by decide⟩

/-- Witness for `c3_amended_unreadable_child` on a directory with an
unreadable child and a readable sibling. -/
theorem c3_amended_unreadable_child_witness :
    FeFolder.mk "locked" [] ∈
      feGetFolderStructure (FS.dir [("locked", FS.unreadableDir), ("ok", FS.dir [])]) :=
  (c3_amended_unreadable_child [("locked", FS.unreadableDir), ("ok", FS.dir [])]
    "locked" (by simp)).1

/-! ### Claim C5 -/

/-- C5, counterexample: the claim says every enumerated listing is
lexicographically sorted within the folder and file groups.  The
`/api/folders` endpoint of file_explorer_app.js performs no sorting: a
directory whose `readdir` order is B, A, Z is returned with folders B
before A. -/
theorem c5_counterexample :
    foldersEndpoint
        (fun _ => FS.dir [("B", FS.dir []), ("A", FS.dir []), ("Z", FS.file [1])])
        "/root" "" =
      FoldersResp.ok ⟨[⟨"B", "B", []⟩, ⟨"A", "A", []⟩], [⟨"Z", "Z"⟩]⟩ ∧
    (["B", "A"] : List String) ≠ ["A", "B"] := by
  decide

/-- C5, amended: only folder_structure_app.js sorts — its enumerator always
returns a list sorted by the folders-before-files, then name, comparator
(so folders `{B, A}` and file `Z` come out as folders A, B then file Z);
the `/api/folders` endpoint separates folders from files but keeps
`readdir` order inside each group. -/
theorem c5_amended_sorted (fuel : Nat) (dirPath : String) (fs : FS) (l : List FsaNode)
    (h : fsaGetFolderStructure fuel dirPath fs = some l) :
    l.Sorted fsaLe ∧
    fsaGetFolderStructure 3 "/r"
        (FS.dir [("B", FS.dir []), ("A", FS.dir []), ("Z", FS.file [7])]) =
      some [FsaNode.folder "A" "/r/A" [], FsaNode.folder "B" "/r/B" [],
        FsaNode.fileNode "Z" "/r/Z" 1] := by
  refine ⟨?_, by decide⟩
  cases fuel with
  | zero => cases h
  | succ f =>
    cases fs with
    | dir entries =>
      simp only [fsaGetFolderStructure] at h
      obtain ⟨raw, hraw, rfl⟩ := Option.map_eq_some'.mp h
      haveI : IsTotal FsaNode fsaLe := ⟨fsaLe_total⟩
      haveI : IsTrans FsaNode fsaLe := ⟨fsaLe_trans⟩
      exact List.sorted_insertionSort fsaLe raw
    | file c => simp only [fsaGetFolderStructure] at h; cases h
    | unreadableDir => simp only [fsaGetFolderStructure] at h; cases h
    | ghost b => simp only [fsaGetFolderStructure] at h; cases h

/-- Witness for `c5_amended_sorted` at an empty directory. -/
theorem c5_amended_sorted_witness :
    List.Sorted fsaLe ([] : List FsaNode) ∧
    fsaGetFolderStructure 3 "/r"
        (FS.dir [("B", FS.dir []), ("A", FS.dir []), ("Z", FS.file [7])]) =
      some [FsaNode.folder "A" "/r/A" [], FsaNode.folder "B" "/r/B" [],
        FsaNode.fileNode "Z" "/r/Z" 1] :=
  c5_amended_sorted 1 "/r" (FS.dir []) [] (by decide)

/-! ### Claim C6 -/

/-- C6, counterexample: the claim says no returned tree ever contains a
node whose name starts with `.` or is a well-known build/dependency
directory.  The `getFolderStructure` of file_explorer_app.js (cited by the
claim) applies no exclusion filter: `.git` and `node_modules` children
appear in its output. -/
theorem c6_counterexample :
    feGetFolderStructure (FS.dir [(".git", FS.dir []), ("node_modules", FS.dir [])]) =
      [FeFolder.mk ".git" [], FeFolder.mk "node_modules" []] := by
  decide

/-- C6, amended: the exclusion invariant holds for folder_structure_app.js's
enumerator — every tree it returns is clean at every depth: no node is
named with a leading `.` or with `node_modules`, `.git`, `dist` or `build`
— while the file_explorer_app.js enumerator does not filter at all. -/
theorem c6_amended_exclusions (fuel : Nat) :
    ∀ (dirPath : String) (fs : FS) (l : List FsaNode),
      fsaGetFolderStructure fuel dirPath fs = some l → fsaListClean l = true := by
  induction fuel with
  | zero => intro _ _ _ h; cases h
  | succ f ih =>
    intro dirPath fs l h
    cases fs with
    | dir entries =>
      simp only [fsaGetFolderStructure] at h
      obtain ⟨raw, hraw, rfl⟩ := Option.map_eq_some'.mp h
      have hclean := fsaLoop_clean (fsaGetFolderStructure f) ih dirPath entries raw hraw
      rw [fsaListClean_iff]
      intro x hx
      exact (fsaListClean_iff raw).mp hclean x ((List.perm_insertionSort fsaLe raw).subset hx)
    | file c => simp only [fsaGetFolderStructure] at h; cases h
    | unreadableDir => simp only [fsaGetFolderStructure] at h; cases h
    | ghost b => simp only [fsaGetFolderStructure] at h; cases h

/-- Witness for `c6_amended_exclusions`: a directory containing `.git` and
an ordinary folder yields a clean tree. -/
theorem c6_amended_exclusions_witness :
    fsaListClean [FsaNode.folder "ok" "/r/ok" []] = true :=
  c6_amended_exclusions 1 "/r" (FS.dir [(".git", FS.dir []), ("ok", FS.dir [])])
    [FsaNode.folder "ok" "/r/ok" []] (by decide)

/-! ### Claim C2 -/

/-- C2, counterexample: the claim says every file of the office/PDF group
gets `downloadable = true`.  In file_explorer_app.js's `readFileContent`
only the `.pdf` branch assigns `downloadable`; a `.doc` file comes back
with the field unset (falsy), not `true`. -/
theorem c2_counterexample :
    (feReadFileContent ⟨"/root/a.doc", Except.ok ⟨false, 5, 111⟩,
        Except.ok [1, 2, 3, 4, 5], Except.ok "x"⟩).map FileInfo.downloadable =
      Except.ok false := by
  decide

/-- C2, amended: in enhanced_server.js, with no extractor installed, every
`.pdf`/`.xlsx`/`.xls`/`.docx`/`.doc` file yields (without throwing) the
fixed placeholder naming the format and stating the file is available for
download, with `downloadable = true`; `.pptx`/`.ppt` also set
`downloadable = true` and never throw, their text being built from file
metadata.  In file_explorer_app.js only the `.pdf` branch sets
`downloadable = true`. -/
theorem c2_amended_office_fallback (pdfRich xlsxRich docxRich : JsFile → String)
    (f : JsFile) (st : StatInfo) (hstat : f.stat = Except.ok st) :
    (asciiLower (extname f.path) = ".pdf" →
      enReadFileContent ⟨false, false, false⟩ pdfRich xlsxRich docxRich f =
        Except.ok ⟨st.size, st.mtime, extType (asciiLower (extname f.path)), false, true,
          "PDF Processing Unavailable\n\nTo enable PDF text extraction, install the pdf-parse library:\nnpm install pdf-parse\n\nThe file is available for download.",
          none, true⟩) ∧
    (asciiLower (extname f.path) = ".xlsx" ∨ asciiLower (extname f.path) = ".xls" →
      enReadFileContent ⟨false, false, false⟩ pdfRich xlsxRich docxRich f =
        Except.ok ⟨st.size, st.mtime, extType (asciiLower (extname f.path)), false, true,
          "Excel Processing Unavailable\n\nTo enable Excel file reading, install the xlsx library:\nnpm install xlsx\n\nThe file is available for download.",
          none, true⟩) ∧
    (asciiLower (extname f.path) = ".docx" →
      enReadFileContent ⟨false, false, false⟩ pdfRich xlsxRich docxRich f =
        Except.ok ⟨st.size, st.mtime, extType (asciiLower (extname f.path)), false, true,
          "Word Document Processing Unavailable\n\nTo enable DOCX text extraction, install the mammoth library:\nnpm install mammoth\n\nThe file is available for download.",
          none, true⟩) ∧
    (asciiLower (extname f.path) = ".doc" →
      enReadFileContent ⟨false, false, false⟩ pdfRich xlsxRich docxRich f =
        Except.ok ⟨st.size, st.mtime, extType (asciiLower (extname f.path)), false, true,
          "Legacy DOC Format\n\nLegacy .DOC files are not supported for text extraction.\nPlease convert to .DOCX format or use Microsoft Word.\n\nThe file is available for download.",
          none, true⟩) ∧
    (asciiLower (extname f.path) = ".pptx" ∨ asciiLower (extname f.path) = ".ppt" →
      enReadFileContent ⟨false, false, false⟩ pdfRich xlsxRich docxRich f =
        Except.ok ⟨st.size, st.mtime, extType (asciiLower (extname f.path)), false, true,
          enProcessPptFile f, none, true⟩) ∧
    (asciiLower (extname f.path) = ".pdf" →
      (feReadFileContent f).map FileInfo.downloadable = Except.ok true) := by
  refine ⟨?_, ?_, ?_, ?_, ?_, ?_⟩
  · intro h
    simp [enReadFileContent, hstat, h]
  · intro h
    rcases h with h | h <;> simp [enReadFileContent, hstat, h]
  · intro h
    simp [enReadFileContent, hstat, h]
  · intro h
    simp [enReadFileContent, hstat, h]
  · intro h
    rcases h with h | h <;> simp [enReadFileContent, hstat, h]
  · intro h
    simp [feReadFileContent, hstat, h, Except.map]

/-- Witness for `c2_amended_office_fallback`: an `.xlsx` file that cannot
even be read still yields the fixed Excel placeholder with
`downloadable = true`. -/
theorem c2_amended_office_fallback_witness :
    enReadFileContent ⟨false, false, false⟩ (fun _ => "") (fun _ => "") (fun _ => "")
        ⟨"/root/b.xlsx", Except.ok ⟨false, 9, 5⟩, Except.error "EACCES",
          Except.error "EACCES"⟩ =
      Except.ok ⟨9, 5,
        extType (asciiLower (extname "/root/b.xlsx")), false, true,
        "Excel Processing Unavailable\n\nTo enable Excel file reading, install the xlsx library:\nnpm install xlsx\n\nThe file is available for download.",
        none, true⟩ :=
  (c2_amended_office_fallback (fun _ => "") (fun _ => "") (fun _ => "")
    ⟨"/root/b.xlsx", Except.ok ⟨false, 9, 5⟩, Except.error "EACCES",
      Except.error "EACCES"⟩ ⟨false, 9, 5⟩ rfl).2.1 (Or.inl (by decide))

/-! ### Claim C4 -/

/-- C4, counterexample: the claim says any exception raised while producing
the content ends in a descriptor whose `error` field carries the message.
When the binary read inside `processExcelFile` fails, its inner `catch`
reports the message in `content` and the descriptor's `error` stays
null. -/
theorem c4_counterexample :
    (feReadFileContent ⟨"/root/a.xlsx", Except.ok ⟨false, 3, 7⟩,
        Except.error "EACCES: permission denied", Except.ok "x"⟩).map FileInfo.error =
      Except.ok none ∧
    (feReadFileContent ⟨"/root/a.xlsx", Except.ok ⟨false, 3, 7⟩,
        Except.error "EACCES: permission denied", Except.ok "x"⟩).map FileInfo.content =
      Except.ok "Error reading Excel file: EACCES: permission denied" := by
  decide

/-- C4, amended: once `stat` has succeeded, `readFileContent` always
returns a descriptor whose `size` and `modified` come from the metadata,
never a thrown fault; and a read failure in the default text branch is
caught by `readFileContent`'s own catch, which stores the placeholder in
`content` and the message in `error` — read failures inside the office
helpers are caught by those helpers and reported in `content` only. -/
theorem c4_amended_error_capture (f : JsFile) (st : StatInfo)
    (hstat : f.stat = Except.ok st) :
    (∀ info, feReadFileContent f = Except.ok info →
      info.size = st.size ∧ info.modified = st.mtime) ∧
    (∃ info, feReadFileContent f = Except.ok info) ∧
    (∀ msg, f.utf8 = Except.error msg →
      asciiLower (extname f.path) ∉
        ([".pdf", ".xlsx", ".xls", ".docx", ".doc", ".pptx", ".ppt"] : List String) →
      feReadFileContent f = Except.ok
        ⟨st.size, st.mtime, extType (asciiLower (extname f.path)), true, false,
          "Unable to read file content. The file may be corrupted or in an unsupported format.",
          some ("Error reading file: " ++ msg), false⟩) := by
  refine ⟨?_, ?_, ?_⟩
  · intro info hinfo
    simp only [feReadFileContent, hstat] at hinfo
    split_ifs at hinfo <;>
      first
        | (cases hinfo; exact ⟨rfl, rfl⟩)
        | (cases hu : f.utf8 <;> simp only [hu] at hinfo <;> cases hinfo <;>
            exact ⟨rfl, rfl⟩)
  · simp only [feReadFileContent, hstat]
    split_ifs <;>
      first
        | exact ⟨_, rfl⟩
        | (cases hu : f.utf8 <;> exact ⟨_, rfl⟩)
  · intro msg hmsg hext
    simp only [List.mem_cons, List.not_mem_nil, or_false, not_or] at hext
    obtain ⟨h1, h2, h3, h4, h5, h6, h7⟩ := hext
    simp [feReadFileContent, hstat, hmsg, h1, h2, h3, h4, h5, h6, h7]

/-- Witness for `c4_amended_error_capture`: a text file whose utf8 read
fails yields the diagnostic placeholder with the message in `error`. -/
theorem c4_amended_error_capture_witness :
    feReadFileContent ⟨"/root/notes.txt", Except.ok ⟨false, 4, 2⟩,
        Except.ok [1], Except.error "EIO"⟩ =
      Except.ok ⟨4, 2, "txt", true, false,
        "Unable to read file content. The file may be corrupted or in an unsupported format.",
        some ("Error reading file: " ++ "EIO"), false⟩ := by
  have h := (c4_amended_error_capture
      ⟨"/root/notes.txt", Except.ok ⟨false, 4, 2⟩, Except.ok [1], Except.error "EIO"⟩
      ⟨false, 4, 2⟩ rfl).2.2 "EIO" rfl (by decide)
  rwa [show extType (asciiLower (extname "/root/notes.txt")) = "txt" from by decide] at h

/-! ### Claim C8 -/

/-- C8: requesting a `.png` file reads it as binary and returns a
descriptor with `isImage = true` whose `content` is a
`data:image/png;base64,` URI, and the base64 payload decodes back to
exactly the original bytes. -/
theorem c8_png_data_uri (root filePath q : String) (f : JsFile) (st : StatInfo)
    (bytes : List Nat) (hg : pathGuard root filePath = some q)
    (hstat : f.stat = Except.ok st) (hbytes : f.bytes = Except.ok bytes)
    (hvalid : ∀ x ∈ bytes, x < 256)
    (hext : asciiLower (extname (root ++ "/" ++ filePath)) = ".png") :
    p0FileEndpoint root filePath f =
      P0Resp.ok ⟨pathBasename (root ++ "/" ++ filePath), st.size, st.mtime, "png",
        "data:image/png;base64," ++ base64String bytes, false, true, true⟩ ∧
    b64DecodeChars (b64EncodeChars bytes) = some bytes := by
  constructor
  · have he : extType ".png" = "png" := by decide
    simp only [p0FileEndpoint, hg, hstat, hext, hbytes, he]
    simp
  · exact b64_roundtrip bytes hvalid

/-- Witness for `c8_png_data_uri` on a three-byte PNG stub. -/
theorem c8_png_data_uri_witness :
    p0FileEndpoint "/root" "img.png"
        ⟨"/root/img.png", Except.ok ⟨false, 3, 9⟩, Except.ok [137, 80, 78],
          Except.error "binary"⟩ =
      P0Resp.ok ⟨pathBasename ("/root" ++ "/" ++ "img.png"), 3, 9, "png",
        "data:image/png;base64," ++ base64String [137, 80, 78], false, true, true⟩ ∧
    b64DecodeChars (b64EncodeChars [137, 80, 78]) = some [137, 80, 78] :=
  c8_png_data_uri "/root" "img.png" "/root/img.png"
    ⟨"/root/img.png", Except.ok ⟨false, 3, 9⟩, Except.ok [137, 80, 78],
      Except.error "binary"⟩
    ⟨false, 3, 9⟩ [137, 80, 78] (by decide) rfl rfl (by decide) (by decide)

end FileExplorer
